import Mathlib

/-!
Shallow embedding of `src/practicalwork7.ts`: an in-memory university
records manager (students, courses, registrations, grades).

Conventions of the embedding:
  * TypeScript `number` identities and counts become `Nat`; grade averages
    (produced by division) become exact rationals `ℚ`.
  * `Date` values are modelled as abstract `Nat` timestamps, supplied as an
    explicit `now` argument where the source calls `new Date()`.
  * The mutating methods of the class become functions `UMS → ... → UMS × Option UMSError`:
    the returned state is the state of the object when the method returns or
    throws, and the second component is `some e` exactly when the source
    throws.  In the source every `throw` happens before any mutation, so the
    state returned alongside an error is the input state.
  * `Array.prototype.find` becomes `List.find?`, `filter` becomes
    `List.filter`, `some` becomes `List.any`, `push` becomes appending a
    one-element list, `reduce` of `+` becomes `List.foldl`.
-/

inductive StudentStatus where
  | Active
  | Academic_Leave
  | Graduated
  | Expelled
deriving DecidableEq

inductive CourseType where
  | Mandatory
  | Optional
  | Special
deriving DecidableEq

inductive Semester where
  | First
  | Second
deriving DecidableEq

inductive Grade where
  | Excellent
  | Good
  | Satisfactory
  | Unsatisfactory
deriving DecidableEq

/-- Numeric value of the grade enumeration: Excellent = 5, Good = 4,
Satisfactory = 3, Unsatisfactory = 2. -/
def Grade.val : Grade → Nat
  | .Excellent => 5
  | .Good => 4
  | .Satisfactory => 3
  | .Unsatisfactory => 2

inductive Faculty where
  | Computer_Science
  | Economics
  | Law
  | Engineering
deriving DecidableEq

structure Student where
  id : Nat
  fullName : String
  faculty : Faculty
  year : Nat
  status : StudentStatus
  enrollmentDate : Nat
  groupNumber : String
deriving DecidableEq

structure Course where
  id : Nat
  name : String
  type : CourseType
  credits : Nat
  semester : Semester
  faculty : Faculty
  maxStudents : Nat
deriving DecidableEq

structure StudentGrade where
  studentId : Nat
  courseId : Nat
  grade : Grade
  date : Nat
  semester : Semester
deriving DecidableEq

/-- An element of the `courseRegistrations` collection:
`{ studentId: number; courseId: number }`. -/
structure Registration where
  studentId : Nat
  courseId : Nat
deriving DecidableEq

/-- `Omit<Student, "id">`: the argument of `enrollStudent`. -/
structure StudentData where
  fullName : String
  faculty : Faculty
  year : Nat
  status : StudentStatus
  enrollmentDate : Nat
  groupNumber : String
deriving DecidableEq

/-- `Omit<Course, "id">`: the argument of `addCourse`. -/
structure CourseData where
  name : String
  type : CourseType
  credits : Nat
  semester : Semester
  faculty : Faculty
  maxStudents : Nat
deriving DecidableEq

/-- The private fields of class `UniversityManagementSystem`. -/
structure UMS where
  students : List Student
  courses : List Course
  grades : List StudentGrade
  courseRegistrations : List Registration
  nextStudentId : Nat
  nextCourseId : Nat
deriving DecidableEq

/-- The state of a freshly constructed `UniversityManagementSystem`. -/
def initUMS : UMS :=
  { students := [], courses := [], grades := [], courseRegistrations := []
    nextStudentId := 1, nextCourseId := 1 }

/-- The distinguishable failure kinds of the mutating operations (the source
throws `Error` with a distinct message for each). -/
inductive UMSError where
  | NotFound : String → UMSError
  | CapacityExceeded
  | FacultyMismatch
  | NotRegistered
  | IllegalTransition
deriving DecidableEq

/-- `this.students.find(s => s.id === studentId)`. -/
def findStudent (st : UMS) (studentId : Nat) : Option Student :=
  st.students.find? (fun s => s.id == studentId)

/-- `this.courses.find(c => c.id === courseId)`. -/
def findCourse (st : UMS) (courseId : Nat) : Option Course :=
  st.courses.find? (fun c => c.id == courseId)

/-- `enrollStudent`: assigns `nextStudentId` (post-incrementing it), pushes the
new record, and returns it together with the updated state. -/
def enrollStudent (st : UMS) (student : StudentData) : Student × UMS :=
  let newStudent : Student :=
    { id := st.nextStudentId, fullName := student.fullName
      faculty := student.faculty, year := student.year
      status := student.status, enrollmentDate := student.enrollmentDate
      groupNumber := student.groupNumber }
  (newStudent,
    { st with students := st.students ++ [newStudent]
              nextStudentId := st.nextStudentId + 1 })

/-- `addCourse`: assigns `nextCourseId` (post-incrementing it), pushes the new
record, and returns it together with the updated state. -/
def addCourse (st : UMS) (course : CourseData) : Course × UMS :=
  let newCourse : Course :=
    { id := st.nextCourseId, name := course.name, type := course.type
      credits := course.credits, semester := course.semester
      faculty := course.faculty, maxStudents := course.maxStudents }
  (newCourse,
    { st with courses := st.courses ++ [newCourse]
              nextCourseId := st.nextCourseId + 1 })

/-- `registerForCourse(studentId, courseId)`: checks, in order, student
existence, course existence, capacity (`filtered registrations ≥ maxStudents`
rejects) and faculty equality, then pushes `{ studentId, courseId }`. -/
def registerForCourse (st : UMS) (studentId courseId : Nat) : UMS × Option UMSError :=
  match findStudent st studentId with
  | none => (st, some (.NotFound "student"))
  | some student =>
    match findCourse st courseId with
    | none => (st, some (.NotFound "course"))
    | some course =>
      let registrationsForCourse := st.courseRegistrations.filter (fun reg => reg.courseId == courseId)
      if registrationsForCourse.length ≥ course.maxStudents then
        (st, some .CapacityExceeded)
      else if student.faculty ≠ course.faculty then
        (st, some .FacultyMismatch)
      else
        ({ st with courseRegistrations := st.courseRegistrations ++ [⟨studentId, courseId⟩] }, none)

/-- `setGrade(studentId, courseId, grade)`: requires a registration for
exactly this pair, then (defensively) the course, then pushes a grade record
dated `now` and stamped with the course's semester. -/
def setGrade (st : UMS) (studentId courseId : Nat) (grade : Grade) (now : Nat) : UMS × Option UMSError :=
  let isRegistered := st.courseRegistrations.any (fun reg => reg.studentId == studentId && reg.courseId == courseId)
  if !isRegistered then
    (st, some .NotRegistered)
  else
    match findCourse st courseId with
    | none => (st, some (.NotFound "course"))
    | some course =>
      ({ st with grades := st.grades ++ [⟨studentId, courseId, grade, now, course.semester⟩] }, none)

/-- In-place mutation `student.status = newStatus` through the reference
returned by `find`: the first list entry whose `id` matches has its `status`
field overwritten; everything else is untouched. -/
def setStatusFirst (studentId : Nat) (newStatus : StudentStatus) : List Student → List Student
  | [] => []
  | s :: rest =>
    if s.id == studentId then { s with status := newStatus } :: rest
    else s :: setStatusFirst studentId newStatus rest

/-- `updateStudentStatus(studentId, newStatus)`: requires the student to
exist; rejects when the current status is `Expelled` and the new one is not;
otherwise overwrites the status field in place. -/
def updateStudentStatus (st : UMS) (studentId : Nat) (newStatus : StudentStatus) : UMS × Option UMSError :=
  match findStudent st studentId with
  | none => (st, some (.NotFound "student"))
  | some student =>
    if student.status = .Expelled ∧ newStatus ≠ .Expelled then
      (st, some .IllegalTransition)
    else
      ({ st with students := setStatusFirst studentId newStatus st.students }, none)

/-- `getStudentsByFaculty(faculty)`. -/
def getStudentsByFaculty (st : UMS) (faculty : Faculty) : List Student :=
  st.students.filter (fun s => decide (s.faculty = faculty))

/-- `getStudentGrades(studentId)`. -/
def getStudentGrades (st : UMS) (studentId : Nat) : List StudentGrade :=
  st.grades.filter (fun g => g.studentId == studentId)

/-- `getAvailableCourses(faculty, semester)`. -/
def getAvailableCourses (st : UMS) (faculty : Faculty) (semester : Semester) : List Course :=
  st.courses.filter (fun c => decide (c.faculty = faculty) && decide (c.semester = semester))

/-- `calculateAverageGrade(studentId)`: 0 for no grades, otherwise the sum of
grade values (a `reduce` over `+`) divided by the count, as an exact rational. -/
def calculateAverageGrade (st : UMS) (studentId : Nat) : ℚ :=
  let studentGrades := getStudentGrades st studentId
  if studentGrades.length == 0 then 0
  else
    let total := studentGrades.foldl (fun sum g => sum + (g.grade.val : ℚ)) 0
    total / studentGrades.length

/-- `getTopStudents(faculty)`: pairs each student of the faculty with their
average, takes the maximum average (`Math.max` over the empty list is
`-Infinity`, modelled by `⊥` in `WithBot ℚ`), and keeps the students whose
average equals the maximum and is strictly positive. -/
def getTopStudents (st : UMS) (faculty : Faculty) : List Student :=
  let studentsInFaculty := getStudentsByFaculty st faculty
  let studentAverages := studentsInFaculty.map (fun student => (student, calculateAverageGrade st student.id))
  let topAverage : WithBot ℚ := (studentAverages.map (fun sa => sa.2)).maximum
  (studentAverages.filter
      (fun sa => decide ((sa.2 : WithBot ℚ) = topAverage) && decide ((0 : ℚ) < sa.2))).map
    (fun sa => sa.1)

/-- One call to a mutating method, for reasoning about operation sequences. -/
inductive Op where
  | enroll (d : StudentData)
  | addCourse (d : CourseData)
  | register (studentId courseId : Nat)
  | setGrade (studentId courseId : Nat) (grade : Grade) (now : Nat)
  | updateStatus (studentId : Nat) (newStatus : StudentStatus)

/-- The state after one mutating call (a failed call leaves the state as the
method left it, which is unchanged). -/
def step (st : UMS) : Op → UMS
  | .enroll d => (enrollStudent st d).2
  | .addCourse d => (addCourse st d).2
  | .register sid cid => (registerForCourse st sid cid).1
  | .setGrade sid cid g now => (setGrade st sid cid g now).1
  | .updateStatus sid ns => (updateStudentStatus st sid ns).1

/-- The state after a sequence of mutating calls. -/
def run (st : UMS) (ops : List Op) : UMS :=
  ops.foldl step st

/-- States reachable from a freshly constructed manager. -/
def Reachable (st : UMS) : Prop :=
  ∃ ops, run initUMS ops = st

/-! ### Helper lemmas about `find?` on the collections -/

theorem findStudent_eq_none_iff (st : UMS) (sid : Nat) :
    findStudent st sid = none ↔ ∀ s ∈ st.students, s.id ≠ sid := by
  simp [findStudent, List.find?_eq_none]

theorem findCourse_eq_none_iff (st : UMS) (cid : Nat) :
    findCourse st cid = none ↔ ∀ c ∈ st.courses, c.id ≠ cid := by
  simp [findCourse, List.find?_eq_none]

theorem findStudent_some (st : UMS) (sid : Nat) (s : Student)
    (h : findStudent st sid = some s) : s ∈ st.students ∧ s.id = sid := by
  refine ⟨List.mem_of_find?_eq_some h, ?_⟩
  have := List.find?_some h
  simpa using this

theorem findCourse_some (st : UMS) (cid : Nat) (c : Course)
    (h : findCourse st cid = some c) : c ∈ st.courses ∧ c.id = cid := by
  refine ⟨List.mem_of_find?_eq_some h, ?_⟩
  have := List.find?_some h
  simpa using this

theorem findStudent_isSome (st : UMS) (sid : Nat)
    (h : ∃ s ∈ st.students, s.id = sid) : ∃ s, findStudent st sid = some s := by
  rw [← Option.isSome_iff_exists]
  rw [findStudent, List.find?_isSome]
  simpa using h

/-! ### C1: `registerForCourse` check order and success effect -/

/-- C1: `registerForCourse` performs its checks in order — missing student
first (`NotFound "student"`), then missing course (`NotFound "course"`), then
capacity (`CapacityExceeded` when the existing registration count for the
course is not strictly below `maxStudents`), then faculty
(`FacultyMismatch`) — and on success it appends exactly one new
`Registration (studentId, courseId)`, changing nothing else. -/
theorem registerForCourse_spec (st : UMS) (sid cid : Nat) :
    ((∀ s ∈ st.students, s.id ≠ sid) →
      registerForCourse st sid cid = (st, some (.NotFound "student"))) ∧
    ((∃ s ∈ st.students, s.id = sid) → (∀ c ∈ st.courses, c.id ≠ cid) →
      registerForCourse st sid cid = (st, some (.NotFound "course"))) ∧
    (∀ s c, findStudent st sid = some s → findCourse st cid = some c →
      c.maxStudents ≤ (st.courseRegistrations.filter (fun reg => reg.courseId == cid)).length →
      registerForCourse st sid cid = (st, some .CapacityExceeded)) ∧
    (∀ s c, findStudent st sid = some s → findCourse st cid = some c →
      (st.courseRegistrations.filter (fun reg => reg.courseId == cid)).length < c.maxStudents →
      s.faculty ≠ c.faculty →
      registerForCourse st sid cid = (st, some .FacultyMismatch)) ∧
    (∀ s c, findStudent st sid = some s → findCourse st cid = some c →
      (st.courseRegistrations.filter (fun reg => reg.courseId == cid)).length < c.maxStudents →
      s.faculty = c.faculty →
      registerForCourse st sid cid =
        ({ st with courseRegistrations := st.courseRegistrations ++ [⟨sid, cid⟩] }, none)) := by
  refine ⟨?_, ?_, ?_, ?_, ?_⟩
  · intro h
    have hf : findStudent st sid = none := (findStudent_eq_none_iff st sid).mpr h
    simp [registerForCourse, hf]
  · intro hs hc
    obtain ⟨s, hfs⟩ := findStudent_isSome st sid hs
    have hfc : findCourse st cid = none := (findCourse_eq_none_iff st cid).mpr hc
    simp [registerForCourse, hfs, hfc]
  · intro s c hfs hfc hcap
    simp only [registerForCourse, hfs, hfc]
    rw [if_pos hcap]
  · intro s c hfs hfc hlt hfac
    simp only [registerForCourse, hfs, hfc]
    rw [if_neg (by omega), if_pos hfac]
  · intro s c hfs hfc hlt hfac
    simp only [registerForCourse, hfs, hfc]
    rw [if_neg (by omega), if_neg (by simp [hfac])]

/-- A concrete manager holding one Computer Science student (id 1), one
Computer Science course (id 1) with capacity 30, and no registrations. -/
def demoState : UMS :=
  { students := [⟨1, "Ivan", .Computer_Science, 1, .Active, 0, "CS-101"⟩]
    courses := [⟨1, "Prog", .Mandatory, 5, .First, .Computer_Science, 30⟩]
    grades := [], courseRegistrations := []
    nextStudentId := 2, nextCourseId := 2 }

/-- Witness for C1: on `demoState` all four checks pass and the registration
(1, 1) is appended. -/
theorem registerForCourse_spec_witness :
    registerForCourse demoState 1 1 =
      ({ demoState with courseRegistrations := demoState.courseRegistrations ++ [⟨1, 1⟩] }, none) :=
  (registerForCourse_spec demoState 1 1).2.2.2.2
    ⟨1, "Ivan", .Computer_Science, 1, .Active, 0, "CS-101"⟩
    ⟨1, "Prog", .Mandatory, 5, .First, .Computer_Science, 30⟩
    rfl rfl (by decide) rfl

/-! ### C2: `setGrade` checks, semester stamping, append-only grades -/

/-- C2: `setGrade` fails with `NotRegistered` when no registration matches the
exact (studentId, courseId) pair, then with `NotFound "course"` when the
course is missing; on success it appends exactly one `StudentGrade` whose
`semester` is copied from the referenced course, and a repeated successful
call appends a second record (grades are never updated or deleted). -/
theorem setGrade_spec (st : UMS) (sid cid : Nat) (g : Grade) (now : Nat) :
    ((∀ r ∈ st.courseRegistrations, ¬(r.studentId = sid ∧ r.courseId = cid)) →
      setGrade st sid cid g now = (st, some .NotRegistered)) ∧
    ((∃ r ∈ st.courseRegistrations, r.studentId = sid ∧ r.courseId = cid) →
      (∀ c ∈ st.courses, c.id ≠ cid) →
      setGrade st sid cid g now = (st, some (.NotFound "course"))) ∧
    (∀ c, (∃ r ∈ st.courseRegistrations, r.studentId = sid ∧ r.courseId = cid) →
      findCourse st cid = some c →
      setGrade st sid cid g now =
        ({ st with grades := st.grades ++ [⟨sid, cid, g, now, c.semester⟩] }, none)) ∧
    (∀ c, (∃ r ∈ st.courseRegistrations, r.studentId = sid ∧ r.courseId = cid) →
      findCourse st cid = some c → ∀ g2 now2,
      setGrade (setGrade st sid cid g now).1 sid cid g2 now2 =
        ({ st with grades :=
            st.grades ++ [⟨sid, cid, g, now, c.semester⟩, ⟨sid, cid, g2, now2, c.semester⟩] }, none)) := by
  have hany : ∀ (l : List Registration),
      (∃ r ∈ l, r.studentId = sid ∧ r.courseId = cid) →
      l.any (fun reg => reg.studentId == sid && reg.courseId == cid) = true := by
    intro l ⟨r, hr, h1, h2⟩
    rw [List.any_eq_true]
    exact ⟨r, hr, by simp [h1, h2]⟩
  refine ⟨?_, ?_, ?_, ?_⟩
  · intro h
    have hreg : st.courseRegistrations.any
        (fun reg => reg.studentId == sid && reg.courseId == cid) = false := by
      rw [List.any_eq_false]
      intro r hr
      simpa using h r hr
    simp [setGrade, hreg]
  · intro hex hc
    have hfc : findCourse st cid = none := (findCourse_eq_none_iff st cid).mpr hc
    simp [setGrade, hany st.courseRegistrations hex, hfc]
  · intro c hex hfc
    simp [setGrade, hany st.courseRegistrations hex, hfc]
  · intro c hex hfc g2 now2
    have h1 : setGrade st sid cid g now =
        ({ st with grades := st.grades ++ [⟨sid, cid, g, now, c.semester⟩] }, none) := by
      simp [setGrade, hany st.courseRegistrations hex, hfc]
    rw [h1]
    have hfc2 : findCourse { st with grades := st.grades ++ [⟨sid, cid, g, now, c.semester⟩] } cid = some c := hfc
    simp [setGrade, hany st.courseRegistrations hex, hfc2]

/-- A copy of `demoState` in which student 1 is registered for course 1. -/
def demoStateReg : UMS :=
  { demoState with courseRegistrations := [⟨1, 1⟩] }

/-- Witness for C2: grading the registered pair (1, 1) appends one grade
record stamped with the course's semester (`First`). -/
theorem setGrade_spec_witness :
    setGrade demoStateReg 1 1 .Excellent 7 =
      ({ demoStateReg with grades := demoStateReg.grades ++ [⟨1, 1, .Excellent, 7, .First⟩] }, none) :=
  (setGrade_spec demoStateReg 1 1 .Excellent 7).2.2.1
    ⟨1, "Prog", .Mandatory, 5, .First, .Computer_Science, 30⟩
    (by decide) rfl

/-! ### C3: status transitions and the terminal `Expelled` state -/

theorem setStatusFirst_find? (sid : Nat) (ns : StudentStatus) (l : List Student) :
    (setStatusFirst sid ns l).find? (fun s => s.id == sid) =
      (l.find? (fun s => s.id == sid)).map (fun s => { s with status := ns }) := by
  induction l with
  | nil => rfl
  | cons s rest ih =>
    by_cases h : s.id = sid
    · simp [setStatusFirst, h]
    · have hb : (s.id == sid) = false := by simpa using h
      simp [setStatusFirst, hb, ih]

/-- C3: for an existing student, `updateStudentStatus` fails with
`IllegalTransition` exactly when the current status is `Expelled` and the
requested status differs; every other request succeeds and overwrites the
status field in place — consequently an `Expelled` student's status never
changes. -/
theorem updateStudentStatus_spec (st : UMS) (sid : Nat) (ns : StudentStatus) :
    ∀ s, findStudent st sid = some s →
      ((updateStudentStatus st sid ns).2 = some .IllegalTransition ↔
        s.status = .Expelled ∧ ns ≠ .Expelled) ∧
      ((s.status = .Expelled → ns = .Expelled) →
        updateStudentStatus st sid ns =
          ({ st with students := setStatusFirst sid ns st.students }, none) ∧
        findStudent (updateStudentStatus st sid ns).1 sid = some { s with status := ns }) ∧
      (s.status = .Expelled →
        ∀ s', findStudent (updateStudentStatus st sid ns).1 sid = some s' →
          s'.status = .Expelled) := by
  intro s hfs
  by_cases hcond : s.status = .Expelled ∧ ns ≠ .Expelled
  · have hres : updateStudentStatus st sid ns = (st, some .IllegalTransition) := by
      simp [updateStudentStatus, hfs, if_pos hcond]
    refine ⟨by simp [hres, hcond], ?_, ?_⟩
    · intro h
      exact absurd (h hcond.1) hcond.2
    · intro _ s' hs'
      rw [hres] at hs'
      rw [hfs] at hs'
      cases hs'
      exact hcond.1
  · have hres : updateStudentStatus st sid ns =
        ({ st with students := setStatusFirst sid ns st.students }, none) := by
      simp [updateStudentStatus, hfs, if_neg hcond]
    have hfind : findStudent (updateStudentStatus st sid ns).1 sid =
        some { s with status := ns } := by
      rw [hres]
      show (setStatusFirst sid ns st.students).find? (fun t => t.id == sid) = _
      rw [setStatusFirst_find?, show st.students.find? (fun t => t.id == sid) = some s from hfs]
      rfl
    refine ⟨by simp [hres, hcond], fun _ => ⟨hres, hfind⟩, ?_⟩
    · intro hexp s' hs'
      have hns : ns = .Expelled := by
        by_contra hns
        exact hcond ⟨hexp, hns⟩
      rw [hfind] at hs'
      cases hs'
      exact hns

/-- A manager holding a single expelled student. -/
def demoExpelled : UMS :=
  { students := [⟨1, "Petro", .Law, 2, .Expelled, 0, "L-201"⟩]
    courses := [], grades := [], courseRegistrations := []
    nextStudentId := 2, nextCourseId := 1 }

/-- Witness for C3: moving an expelled student to `Active` is rejected with
`IllegalTransition`. -/
theorem updateStudentStatus_spec_witness :
    (updateStudentStatus demoExpelled 1 .Active).2 = some .IllegalTransition :=
  ((updateStudentStatus_spec demoExpelled 1 .Active
      ⟨1, "Petro", .Law, 2, .Expelled, 0, "L-201"⟩ rfl).1).mpr (by decide)

/-! ### C4: the arithmetic mean of a student's grades -/

theorem foldl_add_gradeVal (l : List StudentGrade) (a : ℚ) :
    l.foldl (fun sum g => sum + (g.grade.val : ℚ)) a =
      a + (l.map (fun g => (g.grade.val : ℚ))).sum := by
  induction l generalizing a with
  | nil => simp
  | cons g rest ih => simp [ih, add_assoc]

/-- C4: `calculateAverageGrade` returns exactly 0 when the student has no
grade records, and otherwise the exact arithmetic mean — the sum of the
numeric grade values divided by their count. -/
theorem calculateAverageGrade_spec (st : UMS) (sid : Nat) :
    (getStudentGrades st sid = [] → calculateAverageGrade st sid = 0) ∧
    (getStudentGrades st sid ≠ [] →
      calculateAverageGrade st sid =
        ((getStudentGrades st sid).map (fun g => (g.grade.val : ℚ))).sum /
          ((getStudentGrades st sid).length : ℚ)) := by
  constructor
  · intro h
    simp [calculateAverageGrade, h]
  · intro h
    have hlen : ((getStudentGrades st sid).length == 0) = false := by
      simpa using h
    simp only [calculateAverageGrade, hlen, Bool.false_eq_true, if_false]
    rw [foldl_add_gradeVal]
    rw [zero_add]

/-- A manager in which student 1 has been graded Excellent (5) and
Satisfactory (3) for course 1. -/
def demoGraded : UMS :=
  { demoStateReg with
      grades := [⟨1, 1, .Excellent, 0, .First⟩, ⟨1, 1, .Satisfactory, 1, .First⟩] }

/-- Witness for C4: the grades [5, 3] average to exactly 4. -/
theorem calculateAverageGrade_spec_witness :
    getStudentGrades demoGraded 1 ≠ [] ∧ calculateAverageGrade demoGraded 1 = 4 := by
  refine ⟨by decide, ?_⟩
  rw [(calculateAverageGrade_spec demoGraded 1).2 (by decide)]
  norm_num [getStudentGrades, demoGraded, demoStateReg, demoState, Grade.val, List.filter]

/-! ### C5: `getTopStudents` selects exactly the positive-average maximisers -/

/-- C5: a student is returned by `getTopStudents` exactly when they belong to
the faculty, have a strictly positive average, and no student of the faculty
has a higher average; in particular the result is empty when nobody in the
faculty has a grade, and all students tied at the maximum are included. -/
theorem getTopStudents_spec (st : UMS) (faculty : Faculty) (s : Student) :
    s ∈ getTopStudents st faculty ↔
      s ∈ st.students ∧ s.faculty = faculty ∧ 0 < calculateAverageGrade st s.id ∧
      ∀ t ∈ st.students, t.faculty = faculty →
        calculateAverageGrade st t.id ≤ calculateAverageGrade st s.id := by
  constructor
  · intro hmem
    simp only [getTopStudents, List.mem_map, List.mem_filter] at hmem
    obtain ⟨sa, ⟨hsa_mem, hpred⟩, hfst⟩ := hmem
    obtain ⟨u, hu, rfl⟩ := hsa_mem
    have hu' := hu
    simp only [getStudentsByFaculty, List.mem_filter, decide_eq_true_eq] at hu'
    simp only [Bool.and_eq_true, decide_eq_true_eq] at hpred
    obtain ⟨hmax, hpos⟩ := hpred
    cases hfst
    refine ⟨hu'.1, hu'.2, hpos, ?_⟩
    intro t ht htf
    have hmax' := List.maximum_eq_coe_iff.mp hmax.symm
    have htmem : calculateAverageGrade st t.id ∈
        (List.map (fun sa => sa.2)
          ((getStudentsByFaculty st faculty).map
            (fun student => (student, calculateAverageGrade st student.id)))) := by
      rw [List.map_map]
      refine List.mem_map.mpr ⟨t, ?_, rfl⟩
      simp [getStudentsByFaculty, List.mem_filter, ht, htf]
    exact_mod_cast hmax'.2 _ htmem
  · rintro ⟨hs, hf, hpos, hmax⟩
    have hsf : s ∈ getStudentsByFaculty st faculty := by
      simp [getStudentsByFaculty, List.mem_filter, hs, hf]
    have hself : (calculateAverageGrade st s.id : WithBot ℚ) ∈
        (List.map (fun sa => sa.2)
          ((getStudentsByFaculty st faculty).map
            (fun student => (student, calculateAverageGrade st student.id)))).map
          (fun q => (q : WithBot ℚ)) := by
      rw [List.map_map, List.map_map]
      exact List.mem_map.mpr ⟨s, hsf, rfl⟩
    have hmaxeq :
        (List.map (fun sa => sa.2)
          ((getStudentsByFaculty st faculty).map
            (fun student => (student, calculateAverageGrade st student.id)))).maximum =
          (calculateAverageGrade st s.id : WithBot ℚ) := by
      apply List.maximum_eq_coe_iff.mpr
      constructor
      · rw [List.map_map]
        exact List.mem_map.mpr ⟨s, hsf, rfl⟩
      · intro b hb
        rw [List.map_map, List.mem_map] at hb
        obtain ⟨t, ht, rfl⟩ := hb
        have ht' := ht
        simp only [getStudentsByFaculty, List.mem_filter, decide_eq_true_eq] at ht'
        exact hmax t ht'.1 ht'.2
    simp only [getTopStudents, List.mem_map]
    refine ⟨(s, calculateAverageGrade st s.id), ?_, rfl⟩
    rw [List.mem_filter]
    refine ⟨List.mem_map.mpr ⟨s, hsf, rfl⟩, ?_⟩
    simp only [Bool.and_eq_true, decide_eq_true_eq]
    exact ⟨hmaxeq.symm, hpos⟩

/-- Witness for C5: in `demoGraded` the lone Computer Science student, whose
average is 4, is returned by `getTopStudents`. -/
theorem getTopStudents_spec_witness :
    (⟨1, "Ivan", .Computer_Science, 1, .Active, 0, "CS-101"⟩ : Student) ∈
      getTopStudents demoGraded .Computer_Science := by
  apply (getTopStudents_spec demoGraded .Computer_Science _).mpr
  refine ⟨by decide, rfl, ?_, ?_⟩
  · norm_num [calculateAverageGrade, getStudentGrades, demoGraded, demoStateReg, demoState,
      Grade.val, List.filter]
  · intro t ht _
    have hts : t = ⟨1, "Ivan", .Computer_Science, 1, .Active, 0, "CS-101"⟩ := by
      simpa [demoGraded, demoStateReg, demoState] using ht
    rw [hts]

/-! ### State-shape lemmas for the mutating operations -/

theorem setStatusFirst_map_id (sid : Nat) (ns : StudentStatus) (l : List Student) :
    (setStatusFirst sid ns l).map (fun s => s.id) = l.map (fun s => s.id) := by
  induction l with
  | nil => rfl
  | cons s rest ih =>
    by_cases h : s.id = sid
    · simp [setStatusFirst, h]
    · have hb : (s.id == sid) = false := by simpa using h
      simp [setStatusFirst, hb, ih]

theorem setStatusFirst_length (sid : Nat) (ns : StudentStatus) (l : List Student) :
    (setStatusFirst sid ns l).length = l.length := by
  have := congrArg List.length (setStatusFirst_map_id sid ns l)
  simpa using this

/-- Every branch of `registerForCourse` leaves every field but
`courseRegistrations` untouched, and only ever appends to that one. -/
theorem registerForCourse_state (st : UMS) (sid cid : Nat) :
    ∃ ext, (registerForCourse st sid cid).1 =
      { st with courseRegistrations := st.courseRegistrations ++ ext } := by
  rcases hfs : findStudent st sid with _ | s
  · exact ⟨[], by simp [registerForCourse, hfs]⟩
  · rcases hfc : findCourse st cid with _ | c
    · exact ⟨[], by simp [registerForCourse, hfs, hfc]⟩
    · by_cases hcap :
        (st.courseRegistrations.filter (fun reg => reg.courseId == cid)).length ≥ c.maxStudents
      · exact ⟨[], by simp [registerForCourse, hfs, hfc, hcap]⟩
      · by_cases hfac : s.faculty ≠ c.faculty
        · exact ⟨[], by simp [registerForCourse, hfs, hfc, hcap, hfac]⟩
        · exact ⟨[⟨sid, cid⟩], by simp [registerForCourse, hfs, hfc, hcap, hfac]⟩

/-- Every branch of `setGrade` leaves every field but `grades` untouched, and
only ever appends to that one. -/
theorem setGrade_state (st : UMS) (sid cid : Nat) (g : Grade) (now : Nat) :
    ∃ ext, (setGrade st sid cid g now).1 =
      { st with grades := st.grades ++ ext } := by
  by_cases hreg : st.courseRegistrations.any
      (fun reg => reg.studentId == sid && reg.courseId == cid) = true
  · rcases hfc : findCourse st cid with _ | c
    · exact ⟨[], by simp [setGrade, hreg, hfc]⟩
    · exact ⟨[⟨sid, cid, g, now, c.semester⟩], by simp [setGrade, hreg, hfc]⟩
  · have hreg' : st.courseRegistrations.any
        (fun reg => reg.studentId == sid && reg.courseId == cid) = false := by
      simpa using hreg
    exact ⟨[], by simp [setGrade, hreg']⟩

/-- `updateStudentStatus` either leaves the state untouched or rewrites the
status of the first student whose id matches. -/
theorem updateStudentStatus_state (st : UMS) (sid : Nat) (ns : StudentStatus) :
    (updateStudentStatus st sid ns).1 = st ∨
    (updateStudentStatus st sid ns).1 =
      { st with students := setStatusFirst sid ns st.students } := by
  rcases hfs : findStudent st sid with _ | s
  · exact .inl (by simp [updateStudentStatus, hfs])
  · by_cases hcond : s.status = .Expelled ∧ ns ≠ .Expelled
    · exact .inl (by simp [updateStudentStatus, hfs, hcond])
    · exact .inr (by simp [updateStudentStatus, hfs, hcond])

/-! ### C6: identity counters -/

/-- The inductive invariant behind C6: student ids are exactly 1..n in order,
course ids exactly 1..m in order, and each counter is one past its list. -/
def IdInv (st : UMS) : Prop :=
  st.students.map (fun s => s.id) = List.range' 1 st.students.length ∧
  st.courses.map (fun c => c.id) = List.range' 1 st.courses.length ∧
  st.nextStudentId = st.students.length + 1 ∧
  st.nextCourseId = st.courses.length + 1

theorem idInv_init : IdInv initUMS := by
  simp [IdInv, initUMS]

theorem idInv_step (st : UMS) (op : Op) (h : IdInv st) : IdInv (step st op) := by
  obtain ⟨h1, h2, h3, h4⟩ := h
  cases op with
  | enroll d =>
    dsimp only [step, enrollStudent, IdInv]
    refine ⟨?_, h2, ?_, h4⟩
    · rw [List.map_append, h1, List.length_append]
      simp [h3, List.range'_concat, Nat.add_comm]
    · rw [List.length_append, h3]
      simp
  | addCourse d =>
    dsimp only [step, addCourse, IdInv]
    refine ⟨h1, ?_, h3, ?_⟩
    · rw [List.map_append, h2, List.length_append]
      simp [h4, List.range'_concat, Nat.add_comm]
    · rw [List.length_append, h4]
      simp
  | register sid cid =>
    obtain ⟨ext, heq⟩ := registerForCourse_state st sid cid
    show IdInv (registerForCourse st sid cid).1
    rw [heq]
    exact ⟨h1, h2, h3, h4⟩
  | setGrade sid cid g now =>
    obtain ⟨ext, heq⟩ := setGrade_state st sid cid g now
    show IdInv (setGrade st sid cid g now).1
    rw [heq]
    exact ⟨h1, h2, h3, h4⟩
  | updateStatus sid ns =>
    show IdInv (updateStudentStatus st sid ns).1
    rcases updateStudentStatus_state st sid ns with heq | heq
    · rw [heq]
      exact ⟨h1, h2, h3, h4⟩
    · rw [heq]
      refine ⟨?_, h2, ?_, h4⟩
      · show (setStatusFirst sid ns st.students).map (fun s => s.id) =
          List.range' 1 (setStatusFirst sid ns st.students).length
        rw [setStatusFirst_map_id, setStatusFirst_length, h1]
      · show st.nextStudentId = (setStatusFirst sid ns st.students).length + 1
        rw [setStatusFirst_length, h3]

theorem idInv_run (ops : List Op) (st : UMS) (h : IdInv st) : IdInv (run st ops) := by
  induction ops generalizing st with
  | nil => exact h
  | cons op rest ih => exact ih _ (idInv_step st op h)

theorem reachable_idInv (st : UMS) (h : Reachable st) : IdInv st := by
  obtain ⟨ops, rfl⟩ := h
  exact idInv_run ops initUMS idInv_init

/-- C6: in every reachable state the two counters sit one past their
collections (having started at 1), student and course ids are pairwise
distinct, every `enrollStudent` and `addCourse` returns the current counter
value — strictly greater than every previously assigned id of that kind —
and increments it by one; no operation ever decreases a counter. -/
theorem identity_counters_spec (st : UMS) (h : Reachable st) :
    st.nextStudentId = st.students.length + 1 ∧
    st.nextCourseId = st.courses.length + 1 ∧
    (st.students.map (fun s => s.id)).Nodup ∧
    (st.courses.map (fun c => c.id)).Nodup ∧
    (∀ d, (enrollStudent st d).1.id = st.nextStudentId ∧
      (enrollStudent st d).2.nextStudentId = st.nextStudentId + 1 ∧
      ∀ s ∈ st.students, s.id < (enrollStudent st d).1.id) ∧
    (∀ d, (addCourse st d).1.id = st.nextCourseId ∧
      (addCourse st d).2.nextCourseId = st.nextCourseId + 1 ∧
      ∀ c ∈ st.courses, c.id < (addCourse st d).1.id) ∧
    (∀ op, st.nextStudentId ≤ (step st op).nextStudentId ∧
      st.nextCourseId ≤ (step st op).nextCourseId) := by
  obtain ⟨h1, h2, h3, h4⟩ := reachable_idInv st h
  have hslt : ∀ s ∈ st.students, s.id < st.nextStudentId := by
    intro s hs
    have : s.id ∈ st.students.map (fun s => s.id) := List.mem_map.mpr ⟨s, hs, rfl⟩
    rw [h1, List.mem_range'] at this
    omega
  have hclt : ∀ c ∈ st.courses, c.id < st.nextCourseId := by
    intro c hc
    have : c.id ∈ st.courses.map (fun c => c.id) := List.mem_map.mpr ⟨c, hc, rfl⟩
    rw [h2, List.mem_range'] at this
    omega
  refine ⟨h3, h4, ?_, ?_, ?_, ?_, ?_⟩
  · rw [h1]
    exact List.nodup_range' _ _ _ (by norm_num)
  · rw [h2]
    exact List.nodup_range' _ _ _ (by norm_num)
  · exact fun d => ⟨rfl, rfl, hslt⟩
  · exact fun d => ⟨rfl, rfl, hclt⟩
  · intro op
    cases op with
    | enroll d => exact ⟨Nat.le_succ _, Nat.le_refl _⟩
    | addCourse d => exact ⟨Nat.le_refl _, Nat.le_succ _⟩
    | register sid cid =>
      obtain ⟨ext, heq⟩ := registerForCourse_state st sid cid
      show st.nextStudentId ≤ (registerForCourse st sid cid).1.nextStudentId ∧
        st.nextCourseId ≤ (registerForCourse st sid cid).1.nextCourseId
      rw [heq]
      exact ⟨Nat.le_refl _, Nat.le_refl _⟩
    | setGrade sid cid g now =>
      obtain ⟨ext, heq⟩ := setGrade_state st sid cid g now
      show st.nextStudentId ≤ (setGrade st sid cid g now).1.nextStudentId ∧
        st.nextCourseId ≤ (setGrade st sid cid g now).1.nextCourseId
      rw [heq]
      exact ⟨Nat.le_refl _, Nat.le_refl _⟩
    | updateStatus sid ns =>
      show st.nextStudentId ≤ (updateStudentStatus st sid ns).1.nextStudentId ∧
        st.nextCourseId ≤ (updateStudentStatus st sid ns).1.nextCourseId
      rcases updateStudentStatus_state st sid ns with heq | heq <;> rw [heq] <;>
        exact ⟨Nat.le_refl _, Nat.le_refl _⟩

/-- Witness for C6: after enrolling two students from scratch, the state is
reachable and the invariant conjunction holds there. -/
theorem identity_counters_spec_witness :
    (run initUMS [.enroll ⟨"Ivan", .Computer_Science, 1, .Active, 0, "CS-101"⟩,
        .enroll ⟨"Olha", .Economics, 2, .Active, 3, "E-202"⟩]).nextStudentId =
      (run initUMS [.enroll ⟨"Ivan", .Computer_Science, 1, .Active, 0, "CS-101"⟩,
        .enroll ⟨"Olha", .Economics, 2, .Active, 3, "E-202"⟩]).students.length + 1 :=
  (identity_counters_spec _ ⟨_, rfl⟩).1

/-! ### C7: failed mutating calls leave the state untouched -/

/-- C7: whenever `registerForCourse`, `setGrade` or `updateStudentStatus`
fails, the state the method leaves behind is exactly the input state — all
four collections and both counters included — so the manager remains usable
afterwards. -/
theorem failure_no_mutation_spec (st : UMS) :
    (∀ sid cid e, (registerForCourse st sid cid).2 = some e →
      (registerForCourse st sid cid).1 = st) ∧
    (∀ sid cid g now e, (setGrade st sid cid g now).2 = some e →
      (setGrade st sid cid g now).1 = st) ∧
    (∀ sid ns e, (updateStudentStatus st sid ns).2 = some e →
      (updateStudentStatus st sid ns).1 = st) := by
  refine ⟨?_, ?_, ?_⟩
  · intro sid cid e he
    rcases hfs : findStudent st sid with _ | s
    · simp [registerForCourse, hfs]
    · rcases hfc : findCourse st cid with _ | c
      · simp [registerForCourse, hfs, hfc]
      · by_cases hcap :
          (st.courseRegistrations.filter (fun reg => reg.courseId == cid)).length ≥ c.maxStudents
        · simp [registerForCourse, hfs, hfc, hcap]
        · by_cases hfac : s.faculty ≠ c.faculty
          · simp [registerForCourse, hfs, hfc, hcap, hfac]
          · simp [registerForCourse, hfs, hfc, hcap, hfac] at he
  · intro sid cid g now e he
    by_cases hreg : st.courseRegistrations.any
        (fun reg => reg.studentId == sid && reg.courseId == cid) = true
    · rcases hfc : findCourse st cid with _ | c
      · simp [setGrade, hreg, hfc]
      · simp [setGrade, hreg, hfc] at he
    · have hreg' : st.courseRegistrations.any
          (fun reg => reg.studentId == sid && reg.courseId == cid) = false := by
        simpa using hreg
      simp [setGrade, hreg']
  · intro sid ns e he
    rcases hfs : findStudent st sid with _ | s
    · simp [updateStudentStatus, hfs]
    · by_cases hcond : s.status = .Expelled ∧ ns ≠ .Expelled
      · simp [updateStudentStatus, hfs, hcond]
      · simp [updateStudentStatus, hfs, hcond] at he

/-- Witness for C7: registering on an empty manager fails with
`NotFound "student"` and leaves the fresh state unchanged. -/
theorem failure_no_mutation_spec_witness :
    (registerForCourse initUMS 1 1).2 = some (.NotFound "student") ∧
    (registerForCourse initUMS 1 1).1 = initUMS :=
  ⟨rfl, (failure_no_mutation_spec initUMS).1 1 1 _ rfl⟩

/-! ### C8: duplicate registrations (corrected) -/

/-- A manager whose single course has capacity 1 and already holds the
registration (1, 1). -/
def demoFull : UMS :=
  { students := [⟨1, "Ivan", .Computer_Science, 1, .Active, 0, "CS-101"⟩]
    courses := [⟨1, "Prog", .Mandatory, 5, .First, .Computer_Science, 1⟩]
    grades := [], courseRegistrations := [⟨1, 1⟩]
    nextStudentId := 2, nextCourseId := 2 }

/-- Counterexample to C8 as stated: the pair (1, 1) is already registered in
`demoFull`, yet the repeated call does not succeed — the capacity rule IS
re-checked and rejects it with `CapacityExceeded`, because the existing
registration counts toward the course's capacity of 1. -/
theorem duplicateRegistration_counterexample :
    (⟨1, 1⟩ : Registration) ∈ demoFull.courseRegistrations ∧
    (registerForCourse demoFull 1 1).2 = some .CapacityExceeded := by
  decide

/-- C8 (amended): a repeated registration for an already-registered pair is
never rejected *as a duplicate* — any failure is one of the four ordinary
kinds, produced by re-running the same existence, capacity and faculty
checks — and when those checks pass the duplicate call succeeds and appends
another registration, giving the pair at least two entries. -/
theorem duplicateRegistration_spec (st : UMS) (sid cid : Nat)
    (h : (⟨sid, cid⟩ : Registration) ∈ st.courseRegistrations) :
    (∀ e, (registerForCourse st sid cid).2 = some e →
      e = .NotFound "student" ∨ e = .NotFound "course" ∨
      e = .CapacityExceeded ∨ e = .FacultyMismatch) ∧
    (∀ s c, findStudent st sid = some s → findCourse st cid = some c →
      (st.courseRegistrations.filter (fun reg => reg.courseId == cid)).length < c.maxStudents →
      s.faculty = c.faculty →
      registerForCourse st sid cid =
        ({ st with courseRegistrations := st.courseRegistrations ++ [⟨sid, cid⟩] }, none) ∧
      2 ≤ ((st.courseRegistrations ++ [(⟨sid, cid⟩ : Registration)]).filter
            (fun reg => reg.studentId == sid && reg.courseId == cid)).length) := by
  constructor
  · intro e he
    rcases hfs : findStudent st sid with _ | s
    · simp [registerForCourse, hfs] at he
      simp [he.symm]
    · rcases hfc : findCourse st cid with _ | c
      · simp [registerForCourse, hfs, hfc] at he
        simp [he.symm]
      · by_cases hcap :
          (st.courseRegistrations.filter (fun reg => reg.courseId == cid)).length ≥ c.maxStudents
        · simp [registerForCourse, hfs, hfc, hcap] at he
          simp [he.symm]
        · by_cases hfac : s.faculty ≠ c.faculty
          · simp [registerForCourse, hfs, hfc, hcap, hfac] at he
            simp [he.symm]
          · simp [registerForCourse, hfs, hfc, hcap, hfac] at he
  · intro s c hfs hfc hlt hfac
    constructor
    · simp only [registerForCourse, hfs, hfc]
      rw [if_neg (by omega), if_neg (by simp [hfac])]
    · have hmem : (⟨sid, cid⟩ : Registration) ∈
          st.courseRegistrations.filter (fun reg => reg.studentId == sid && reg.courseId == cid) :=
        List.mem_filter.mpr ⟨h, by simp⟩
      have hpos := List.length_pos_of_mem hmem
      rw [List.filter_append]
      simp only [List.filter_cons, List.filter_nil, beq_self_eq_true, Bool.and_self,
        if_true, List.length_append, List.length_cons, List.length_nil]
      omega

/-- A manager like `demoFull` but with course capacity 2. -/
def demoCap2 : UMS :=
  { demoFull with courses := [⟨1, "Prog", .Mandatory, 5, .First, .Computer_Science, 2⟩] }

/-- Witness for the amended C8: with capacity 2 the duplicate call for the
already-registered pair (1, 1) passes every re-run check and appends a second
registration. -/
theorem duplicateRegistration_spec_witness :
    registerForCourse demoCap2 1 1 =
      ({ demoCap2 with courseRegistrations := demoCap2.courseRegistrations ++ [⟨1, 1⟩] }, none) :=
  ((duplicateRegistration_spec demoCap2 1 1 (by decide)).2
    ⟨1, "Ivan", .Computer_Science, 1, .Active, 0, "CS-101"⟩
    ⟨1, "Prog", .Mandatory, 5, .First, .Computer_Science, 2⟩
    rfl rfl (by decide) rfl).1

/-! ### C9: frame conditions on the entity collections -/

/-- Two student records that agree on every field except possibly `status`. -/
def agreeExceptStatus (s t : Student) : Prop :=
  s.id = t.id ∧ s.fullName = t.fullName ∧ s.faculty = t.faculty ∧
  s.year = t.year ∧ s.enrollmentDate = t.enrollmentDate ∧ s.groupNumber = t.groupNumber

theorem agreeExceptStatus_refl (s : Student) : agreeExceptStatus s s :=
  ⟨rfl, rfl, rfl, rfl, rfl, rfl⟩

theorem agreeExceptStatus_trans {a b c : Student}
    (h1 : agreeExceptStatus a b) (h2 : agreeExceptStatus b c) : agreeExceptStatus a c := by
  obtain ⟨e1, e2, e3, e4, e5, e6⟩ := h1
  obtain ⟨f1, f2, f3, f4, f5, f6⟩ := h2
  exact ⟨e1.trans f1, e2.trans f2, e3.trans f3, e4.trans f4, e5.trans f5, e6.trans f6⟩

theorem setStatusFirst_get (sid : Nat) (ns : StudentStatus) (l : List Student) :
    ∀ i (hi : i < l.length) (hj : i < (setStatusFirst sid ns l).length),
      agreeExceptStatus (l.get ⟨i, hi⟩) ((setStatusFirst sid ns l).get ⟨i, hj⟩) := by
  induction l with
  | nil => intro i hi; exact absurd hi (by simp)
  | cons s rest ih =>
    intro i hi hj
    by_cases h : s.id = sid
    · have hb : (s.id == sid) = true := by simpa using h
      have hrw : setStatusFirst sid ns (s :: rest) = { s with status := ns } :: rest := by
        simp [setStatusFirst, hb]
      cases i with
      | zero =>
        revert hj
        rw [hrw]
        intro hj
        exact ⟨rfl, rfl, rfl, rfl, rfl, rfl⟩
      | succ n =>
        revert hj
        rw [hrw]
        intro hj
        exact agreeExceptStatus_refl _
    · have hb : (s.id == sid) = false := by simpa using h
      have hrw : setStatusFirst sid ns (s :: rest) = s :: setStatusFirst sid ns rest := by
        simp [setStatusFirst, hb]
      cases i with
      | zero =>
        revert hj
        rw [hrw]
        intro hj
        exact agreeExceptStatus_refl _
      | succ n =>
        revert hj
        rw [hrw]
        intro hj
        exact ih n (by simpa using hi) (by simpa using hj)

theorem step_frame (st : UMS) (op : Op) :
    (∃ ext, (step st op).courses = st.courses ++ ext) ∧
    st.students.length ≤ (step st op).students.length ∧
    ∀ i (hi : i < st.students.length) (hj : i < (step st op).students.length),
      agreeExceptStatus (st.students.get ⟨i, hi⟩) ((step st op).students.get ⟨i, hj⟩) := by
  cases op with
  | enroll d =>
    refine ⟨⟨[], by simp [step, enrollStudent]⟩, by simp [step, enrollStudent], ?_⟩
    intro i hi hj
    have : (step st (.enroll d)).students.get ⟨i, hj⟩ = st.students.get ⟨i, hi⟩ := by
      show (st.students ++ [_]).get ⟨i, hj⟩ = st.students.get ⟨i, hi⟩
      rw [List.get_append i hi]
    rw [this]
    exact agreeExceptStatus_refl _
  | addCourse d =>
    exact ⟨⟨[⟨st.nextCourseId, d.name, d.type, d.credits, d.semester, d.faculty, d.maxStudents⟩],
      rfl⟩, Nat.le_refl _, fun i hi hj => agreeExceptStatus_refl _⟩
  | register sid cid =>
    obtain ⟨ext, heq⟩ := registerForCourse_state st sid cid
    dsimp only [step]
    rw [heq]
    exact ⟨⟨[], by simp⟩, Nat.le_refl _, fun i hi hj => agreeExceptStatus_refl _⟩
  | setGrade sid cid g now =>
    obtain ⟨ext, heq⟩ := setGrade_state st sid cid g now
    dsimp only [step]
    rw [heq]
    exact ⟨⟨[], by simp⟩, Nat.le_refl _, fun i hi hj => agreeExceptStatus_refl _⟩
  | updateStatus sid ns =>
    dsimp only [step]
    rcases updateStudentStatus_state st sid ns with heq | heq <;> rw [heq]
    · exact ⟨⟨[], by simp⟩, Nat.le_refl _, fun i hi hj => agreeExceptStatus_refl _⟩
    · exact ⟨⟨[], by simp⟩, Nat.le_of_eq (setStatusFirst_length sid ns st.students).symm,
        setStatusFirst_get sid ns st.students⟩

/-- C9: over any sequence of operations, courses are only ever appended —
existing course records are never mutated or deleted; students are never
deleted, and an existing student record can change only in its `status`
field (name, faculty, year, enrollment date and group are untouched). -/
theorem frame_spec (st : UMS) (ops : List Op) :
    ((∃ ext, (run st ops).courses = st.courses ++ ext) ∧
    st.students.length ≤ (run st ops).students.length ∧
    ∀ i (hi : i < st.students.length) (hj : i < (run st ops).students.length),
      agreeExceptStatus (st.students.get ⟨i, hi⟩) ((run st ops).students.get ⟨i, hj⟩)) ∧
    (∀ d, (enrollStudent st d).2.students = st.students ++ [(enrollStudent st d).1]) ∧
    (∀ d, (addCourse st d).2.students = st.students) ∧
    (∀ sid cid, (registerForCourse st sid cid).1.students = st.students) ∧
    (∀ sid cid g now, (setGrade st sid cid g now).1.students = st.students) := by
  refine ⟨?_, fun d => rfl, fun d => rfl, ?_, ?_⟩
  · induction ops generalizing st with
    | nil =>
      exact ⟨⟨[], by simp [run]⟩, Nat.le_refl _, fun i hi hj => agreeExceptStatus_refl _⟩
    | cons op rest ih =>
      have hrun : run st (op :: rest) = run (step st op) rest := rfl
      obtain ⟨⟨e1, he1⟩, hlen1, hag1⟩ := step_frame st op
      obtain ⟨⟨e2, he2⟩, hlen2, hag2⟩ := ih (step st op)
      rw [hrun]
      refine ⟨⟨e1 ++ e2, by rw [he2, he1, List.append_assoc]⟩, Nat.le_trans hlen1 hlen2, ?_⟩
      intro i hi hj
      have hmid : i < (step st op).students.length := Nat.lt_of_lt_of_le hi hlen1
      exact agreeExceptStatus_trans (hag1 i hi hmid) (hag2 i hmid hj)
  · intro sid cid
    obtain ⟨ext, heq⟩ := registerForCourse_state st sid cid
    rw [heq]
  · intro sid cid g now
    obtain ⟨ext, heq⟩ := setGrade_state st sid cid g now
    rw [heq]

/-- Witness for C9: after a status update, the stored student record still
agrees with the original on every field except `status`. -/
theorem frame_spec_witness :
    agreeExceptStatus (demoState.students.get ⟨0, by decide⟩)
      ((run demoState [.updateStatus 1 .Graduated]).students.get ⟨0, by decide⟩) :=
  (frame_spec demoState [.updateStatus 1 .Graduated]).1.2.2 0 (by decide) (by decide)

/-! ### C10: referential integrity of registrations and grades -/

/-- Referential integrity: every registration points at an existing student
and an existing course, and every grade has a matching registration. -/
def RefInt (st : UMS) : Prop :=
  (∀ r ∈ st.courseRegistrations,
    (∃ s ∈ st.students, s.id = r.studentId) ∧ (∃ c ∈ st.courses, c.id = r.courseId)) ∧
  (∀ g ∈ st.grades, ∃ r ∈ st.courseRegistrations,
    r.studentId = g.studentId ∧ r.courseId = g.courseId)

theorem refInt_init : RefInt initUMS := by
  simp [RefInt, initUMS]

theorem refInt_step (st : UMS) (op : Op) (h : RefInt st) : RefInt (step st op) := by
  obtain ⟨hreg, hgr⟩ := h
  cases op with
  | enroll d =>
    dsimp only [step, enrollStudent]
    refine ⟨fun r hr => ⟨?_, (hreg r hr).2⟩, hgr⟩
    obtain ⟨s, hs, hsid⟩ := (hreg r hr).1
    exact ⟨s, List.mem_append_left _ hs, hsid⟩
  | addCourse d =>
    dsimp only [step, addCourse]
    refine ⟨fun r hr => ⟨(hreg r hr).1, ?_⟩, hgr⟩
    obtain ⟨c, hc, hcid⟩ := (hreg r hr).2
    exact ⟨c, List.mem_append_left _ hc, hcid⟩
  | register sid cid =>
    dsimp only [step]
    rcases hfs : findStudent st sid with _ | s
    · simpa [registerForCourse, hfs] using ⟨hreg, hgr⟩
    · rcases hfc : findCourse st cid with _ | c
      · simpa [registerForCourse, hfs, hfc] using ⟨hreg, hgr⟩
      · by_cases hcap :
          (st.courseRegistrations.filter (fun reg => reg.courseId == cid)).length ≥ c.maxStudents
        · simpa [registerForCourse, hfs, hfc, hcap] using ⟨hreg, hgr⟩
        · by_cases hfac : s.faculty ≠ c.faculty
          · simpa [registerForCourse, hfs, hfc, hcap, hfac] using ⟨hreg, hgr⟩
          · have hres : (registerForCourse st sid cid).1 =
                { st with courseRegistrations := st.courseRegistrations ++ [⟨sid, cid⟩] } := by
              simp [registerForCourse, hfs, hfc, hcap, hfac]
            rw [hres]
            constructor
            · intro r hr
              rcases List.mem_append.mp hr with hr' | hr'
              · exact hreg r hr'
              · have : r = ⟨sid, cid⟩ := List.mem_singleton.mp hr'
                subst this
                exact ⟨⟨s, (findStudent_some st sid s hfs).1, (findStudent_some st sid s hfs).2⟩,
                  ⟨c, (findCourse_some st cid c hfc).1, (findCourse_some st cid c hfc).2⟩⟩
            · intro g hg
              obtain ⟨r, hrm, hm⟩ := hgr g hg
              exact ⟨r, List.mem_append_left _ hrm, hm⟩
  | setGrade sid cid g now =>
    dsimp only [step]
    by_cases hany : st.courseRegistrations.any
        (fun reg => reg.studentId == sid && reg.courseId == cid) = true
    · rcases hfc : findCourse st cid with _ | c
      · simpa [setGrade, hany, hfc] using ⟨hreg, hgr⟩
      · have hres : (setGrade st sid cid g now).1 =
            { st with grades := st.grades ++ [⟨sid, cid, g, now, c.semester⟩] } := by
          simp [setGrade, hany, hfc]
        rw [hres]
        refine ⟨hreg, ?_⟩
        intro g' hg'
        rcases List.mem_append.mp hg' with hg'' | hg''
        · exact hgr g' hg''
        · have : g' = ⟨sid, cid, g, now, c.semester⟩ := List.mem_singleton.mp hg''
          subst this
          obtain ⟨r, hrm, hp⟩ := List.any_eq_true.mp hany
          refine ⟨r, hrm, ?_, ?_⟩
          · simpa using (Bool.and_eq_true_iff.mp hp).1
          · simpa using (Bool.and_eq_true_iff.mp hp).2
    · have hany' : st.courseRegistrations.any
          (fun reg => reg.studentId == sid && reg.courseId == cid) = false := by
        simpa using hany
      simpa [setGrade, hany'] using ⟨hreg, hgr⟩
  | updateStatus sid ns =>
    dsimp only [step]
    rcases updateStudentStatus_state st sid ns with heq | heq <;> rw [heq]
    · exact ⟨hreg, hgr⟩
    · refine ⟨fun r hr => ⟨?_, (hreg r hr).2⟩, hgr⟩
      obtain ⟨s, hs, hsid⟩ := (hreg r hr).1
      have : r.studentId ∈ (setStatusFirst sid ns st.students).map (fun s => s.id) := by
        rw [setStatusFirst_map_id]
        exact List.mem_map.mpr ⟨s, hs, hsid⟩
      obtain ⟨s', hs', hsid'⟩ := List.mem_map.mp this
      exact ⟨s', hs', hsid'⟩

theorem refInt_run (ops : List Op) (st : UMS) (h : RefInt st) : RefInt (run st ops) := by
  induction ops generalizing st with
  | nil => exact h
  | cons op rest ih => exact ih _ (refInt_step st op h)

/-- C10: every reachable state satisfies referential integrity — registrations
refer to existing students and courses, grades have matching registrations —
and every operation preserves it from such a state. -/
theorem referential_integrity_spec (st : UMS) (h : Reachable st) :
    RefInt st ∧ ∀ op, RefInt (step st op) := by
  obtain ⟨ops, rfl⟩ := h
  have hr : RefInt (run initUMS ops) := refInt_run ops initUMS refInt_init
  exact ⟨hr, fun op => refInt_step _ op hr⟩

/-- Witness for C10: the state reached by adding a course, enrolling a student
and registering them satisfies referential integrity. -/
theorem referential_integrity_spec_witness :
    RefInt (run initUMS [.addCourse ⟨"Prog", .Mandatory, 5, .First, .Computer_Science, 30⟩,
      .enroll ⟨"Ivan", .Computer_Science, 1, .Active, 0, "CS-101"⟩, .register 1 1]) :=
  (referential_integrity_spec _ ⟨_, rfl⟩).1
